import Mathlib

/-!
# QuickSync decoder utilities: bounded queue and surface claim set

A shallow embedding of `CQsThreadSafeQueue` (QuickSyncUtils.h) and of the
surface bookkeeping of `CQuickSyncDecoder` (QuickSyncDecoder.h).

Modelling conventions:
* one thread runs the calls one after another, so `CQsAutoLock` scopes have no
  effect on the data and are not represented;
* `size_t` values are natural numbers, and the one place where the source
  subtracts (`m_Capacity - 1`) wraps modulo `SIZE_T_MOD`;
* a `DWORD` timeout is a natural number, `INFINITE` being 0xFFFFFFFF;
* a wait on a set signal succeeds at once; a wait on a cleared signal ends by
  timeout, since no other thread can set the signal, and with the timeout
  `INFINITE` it never returns; an auto-reset signal is cleared by a
  successful wait, a manual-reset signal is not;
* a call that never returns has the result `none`; it is blocked in its wait,
  before the lock is taken, so it has changed nothing, and it is the last call
  of its sequence.
-/

set_option autoImplicit false

namespace QuickSync

/-! ## QsEvent -/

/-- Number of values of `size_t` (64-bit build). -/
def SIZE_T_MOD : Nat := 18446744073709551616

/-- The timeout `INFINITE` (0xFFFFFFFF) of the Win32 wait functions; it is the
default argument of `QsEvent::Wait`. -/
def INFINITE : Nat := 4294967295

/-- State of the Win32 event object held by a `QsEvent`:
whether it is signalled and whether it is a manual-reset event. -/
structure QsEvent where
  m_bState : Bool
  m_bManual : Bool
deriving DecidableEq, Repr

namespace QsEvent

/-- Constructor `QsEvent(bool bSignaled, bool bManual)`. -/
def create (bSignaled bManual : Bool) : QsEvent :=
  ⟨bSignaled, bManual⟩

/-- Method `QsEvent::SetState`: `SetEvent` or `ResetEvent`. -/
def SetState (e : QsEvent) (bSignaled : Bool) : QsEvent :=
  if bSignaled then ⟨true, e.m_bManual⟩ else ⟨false, e.m_bManual⟩

/-- Method `QsEvent::Wait`: `WAIT_OBJECT_0 == WaitForSingleObject(m_hEvent, ms)`.
Gives the result of the wait and the event afterwards, or `none` when the wait
never returns. A set event satisfies the wait at once (and an auto-reset event
is cleared by it); on a cleared event the wait ends by its timeout with
`WAIT_TIMEOUT`, and with the timeout `INFINITE` it does not end. -/
def Wait (e : QsEvent) (dwMilliseconds : Nat) : Option (Bool × QsEvent) :=
  if e.m_bState then
    some (true, if e.m_bManual then e else ⟨false, e.m_bManual⟩)
  else if dwMilliseconds = INFINITE then
    none
  else
    some (false, e)

end QsEvent

/-! ## CQsThreadSafeQueue -/

/-- Data members of `CQsThreadSafeQueue<T>`; the front of the deque is the
head of the list. -/
structure CQsThreadSafeQueue (T : Type) where
  m_Queue : List T
  m_Capacity : Nat
  m_NotEmptyEvent : QsEvent
  m_CapacityEvent : QsEvent
deriving DecidableEq, Repr

namespace CQsThreadSafeQueue

variable {T : Type}

/-- Constructor `CQsThreadSafeQueue(size_t capacity)`: empty deque,
`m_NotEmptyEvent(false)`, `m_CapacityEvent(true)`, both manual-reset by the
default argument of `QsEvent`. -/
def create (capacity : Nat) : CQsThreadSafeQueue T :=
  ⟨[], capacity, QsEvent.create false true, QsEvent.create true true⟩

/-- Method `WaitForCapacity`: waits on `m_CapacityEvent`; `none` when the wait
never returns. -/
def WaitForCapacity (q : CQsThreadSafeQueue T) (dwMiliSecs : Nat) :
    Option (Bool × CQsThreadSafeQueue T) :=
  (q.m_CapacityEvent.Wait dwMiliSecs).map fun w =>
    (w.1, ⟨q.m_Queue, q.m_Capacity, q.m_NotEmptyEvent, w.2⟩)

/-- Method `WaitForNotEmpty`: waits on `m_NotEmptyEvent`; `none` when the wait
never returns. -/
def WaitForNotEmpty (q : CQsThreadSafeQueue T) (dwMiliSecs : Nat) :
    Option (Bool × CQsThreadSafeQueue T) :=
  (q.m_NotEmptyEvent.Wait dwMiliSecs).map fun w =>
    (w.1, ⟨q.m_Queue, q.m_Capacity, w.2, q.m_CapacityEvent⟩)

/-- Method `Push(const T& item, DWORD dwMiliSecs)`: the returned boolean and
the queue afterwards, or `none` when the call never returns. The wait is
evaluated only when `dwMiliSecs > 0`. -/
def Push (q : CQsThreadSafeQueue T) (item : T) (dwMiliSecs : Nat) :
    Option (Bool × CQsThreadSafeQueue T) :=
  (if dwMiliSecs > 0 then q.WaitForCapacity dwMiliSecs else some (true, q)).map fun w =>
    if !w.1 then
      (false, w.2)
    else
      let notEmpty := w.2.m_NotEmptyEvent.SetState true
      let queue := w.2.m_Queue ++ [item]
      let size := queue.length
      if size = w.2.m_Capacity then
        (true, ⟨queue, w.2.m_Capacity, notEmpty, w.2.m_CapacityEvent.SetState false⟩)
      else
        (true, ⟨queue, w.2.m_Capacity, notEmpty, w.2.m_CapacityEvent⟩)

/-- Method `Pop(T& res, DWORD dwMiliSecs)`: the returned boolean, the content
of `res` after the call, and the queue afterwards, or `none` when the call
never returns. -/
def Pop (q : CQsThreadSafeQueue T) (res : T) (dwMiliSecs : Nat) :
    Option (Bool × T × CQsThreadSafeQueue T) :=
  (if dwMiliSecs > 0 then q.WaitForNotEmpty dwMiliSecs else some (true, q)).map fun w =>
    if !w.1 then
      (false, res, w.2)
    else
      match w.2.m_Queue with
      | [] => (false, res, w.2)
      | front :: rest =>
        let size := rest.length
        if size = 0 then
          (true, front,
            ⟨rest, w.2.m_Capacity, w.2.m_NotEmptyEvent.SetState false, w.2.m_CapacityEvent⟩)
        else if size = (w.2.m_Capacity + SIZE_T_MOD - 1) % SIZE_T_MOD then
          (true, front,
            ⟨rest, w.2.m_Capacity, w.2.m_NotEmptyEvent, w.2.m_CapacityEvent.SetState true⟩)
        else
          (true, front, ⟨rest, w.2.m_Capacity, w.2.m_NotEmptyEvent, w.2.m_CapacityEvent⟩)

/-- Method `Size`. -/
def Size (q : CQsThreadSafeQueue T) : Nat := q.m_Queue.length

/-- Method `GetCapacity`. -/
def GetCapacity (q : CQsThreadSafeQueue T) : Nat := q.m_Capacity

/-- Method `HasCapacity`. -/
def HasCapacity (q : CQsThreadSafeQueue T) : Bool :=
  decide (q.m_Queue.length < q.m_Capacity)

/-- Method `Empty`. -/
def Empty (q : CQsThreadSafeQueue T) : Bool := q.m_Queue.isEmpty

end CQsThreadSafeQueue

/-! ## Call sequences on a queue -/

/-- One call made by a client of the queue. `Pop` carries the content of the
caller's `res` variable before the call. -/
inductive QueueCall (T : Type) where
  | Push (item : T) (dwMiliSecs : Nat)
  | Pop (res : T) (dwMiliSecs : Nat)
deriving DecidableEq, Repr

variable {T : Type}

/-- Queue after one call, or `none` when the call never returns. -/
def stepCall (q : CQsThreadSafeQueue T) : QueueCall T → Option (CQsThreadSafeQueue T)
  | .Push item ms => (q.Push item ms).map fun r => r.2
  | .Pop res ms => (q.Pop res ms).map fun r => r.2.2

/-- Queue after a sequence of calls, made in list order by one thread. A call
that never returns ends the sequence and leaves the queue as it found it. -/
def runCalls (q : CQsThreadSafeQueue T) : List (QueueCall T) → CQsThreadSafeQueue T
  | [] => q
  | c :: cs =>
    match stepCall q c with
    | none => q
    | some q1 => runCalls q1 cs

/-- Items of the `Push` calls of the sequence that returned true, in call order. -/
def acceptedItems (q : CQsThreadSafeQueue T) : List (QueueCall T) → List T
  | [] => []
  | .Push item ms :: cs =>
    match q.Push item ms with
    | none => []
    | some r => (if r.1 then [item] else []) ++ acceptedItems r.2 cs
  | .Pop res ms :: cs =>
    match q.Pop res ms with
    | none => []
    | some r => acceptedItems r.2.2 cs

/-- Items delivered in `res` by the `Pop` calls of the sequence that returned
true, in call order. -/
def deliveredItems (q : CQsThreadSafeQueue T) : List (QueueCall T) → List T
  | [] => []
  | .Push item ms :: cs =>
    match q.Push item ms with
    | none => []
    | some r => deliveredItems r.2 cs
  | .Pop res ms :: cs =>
    match q.Pop res ms with
    | none => []
    | some r => (if r.1 then [r.2.1] else []) ++ deliveredItems r.2.2 cs

/-- Every `Push` of the sequence uses a positive timeout. -/
def pushesWait : List (QueueCall T) → Bool
  | [] => true
  | .Push _ ms :: cs => decide (ms > 0) && pushesWait cs
  | .Pop _ _ :: cs => pushesWait cs

/-- Both signals of the queue are manual-reset events. -/
def ManualEvents (q : CQsThreadSafeQueue T) : Prop :=
  q.m_NotEmptyEvent.m_bManual = true ∧ q.m_CapacityEvent.m_bManual = true

/-- The not-empty signal is set exactly when the deque holds an item. -/
def NotEmptyGate (q : CQsThreadSafeQueue T) : Prop :=
  q.m_NotEmptyEvent.m_bState = true ↔ q.m_Queue ≠ []

/-- The capacity signal is set only when the deque is below capacity. -/
def CapacityGateSound (q : CQsThreadSafeQueue T) : Prop :=
  q.m_CapacityEvent.m_bState = true → q.m_Queue.length < q.m_Capacity

/-- The capacity signal is set exactly when the deque is below capacity. -/
def CapacityGate (q : CQsThreadSafeQueue T) : Prop :=
  q.m_CapacityEvent.m_bState = true ↔ q.m_Queue.length < q.m_Capacity

/-- Queue after an effective `Push` on a queue with manual-reset signals. -/
def afterPush (q : CQsThreadSafeQueue T) (item : T) : CQsThreadSafeQueue T :=
  ⟨q.m_Queue ++ [item], q.m_Capacity, ⟨true, q.m_NotEmptyEvent.m_bManual⟩,
    if q.m_Queue.length + 1 = q.m_Capacity then ⟨false, true⟩ else q.m_CapacityEvent⟩

/-- Queue after an effective `Pop` that leaves `rest` in the deque. -/
def afterPop (q : CQsThreadSafeQueue T) (rest : List T) : CQsThreadSafeQueue T :=
  ⟨rest, q.m_Capacity,
    if rest.length = 0 then ⟨false, true⟩ else q.m_NotEmptyEvent,
    if rest.length = 0 then q.m_CapacityEvent
    else if rest.length = (q.m_Capacity + SIZE_T_MOD - 1) % SIZE_T_MOD then
      ⟨true, q.m_CapacityEvent.m_bManual⟩
    else q.m_CapacityEvent⟩

/-! ## CQuickSyncDecoder: output surface queue and locked-surface set -/

/-- A `mfxFrameSurface1*`: an address, `NULL` being 0. -/
abbrev SurfacePtr : Type := Nat

/-- The null pointer. -/
def NULL : SurfacePtr := 0

/-- The part of `mfxFrameData` the decoder reads: the lock counter kept by the
Media SDK. -/
structure mfxFrameData where
  Locked : Nat
deriving DecidableEq, Repr

/-- The part of `mfxFrameSurface1` the decoder reads. -/
structure mfxFrameSurface1 where
  Data : mfxFrameData
deriving DecidableEq, Repr

/-- The surfaces in memory: the object each pointer refers to. -/
abbrev SurfaceMemory : Type := SurfacePtr → mfxFrameSurface1

/-- Data members of `CQuickSyncDecoder` used by the surface bookkeeping:
the deque `m_OutputSurfaceQueue` (front is the head of the list) and the
`std::set` `m_LockedSurfaces`. -/
structure CQuickSyncDecoder where
  m_OutputSurfaceQueue : List SurfacePtr
  m_LockedSurfaces : Finset SurfacePtr
deriving DecidableEq

namespace CQuickSyncDecoder

/-- Method `OutputQueueEmpty`. -/
def OutputQueueEmpty (d : CQuickSyncDecoder) : Bool := d.m_OutputSurfaceQueue.isEmpty

/-- Method `OutputQueueSize`. -/
def OutputQueueSize (d : CQuickSyncDecoder) : Nat := d.m_OutputSurfaceQueue.length

/-- Method `PushSurface`. -/
def PushSurface (d : CQuickSyncDecoder) (pSurface : SurfacePtr) : CQuickSyncDecoder :=
  ⟨d.m_OutputSurfaceQueue ++ [pSurface], d.m_LockedSurfaces⟩

/-- Method `PopSurface`: the returned pointer and the decoder afterwards. -/
def PopSurface (d : CQuickSyncDecoder) : SurfacePtr × CQuickSyncDecoder :=
  match d.m_OutputSurfaceQueue with
  | [] => (NULL, d)
  | pSurface :: rest => (pSurface, ⟨rest, d.m_LockedSurfaces⟩)

/-- Method `LockSurface`: inserts the pointer when `find` does not find it. -/
def LockSurface (d : CQuickSyncDecoder) (pSurface : SurfacePtr) : CQuickSyncDecoder :=
  if pSurface ∈ d.m_LockedSurfaces then d
  else ⟨d.m_OutputSurfaceQueue, insert pSurface d.m_LockedSurfaces⟩

/-- Method `UnlockSurface`: erases the pointer when `find` finds it. -/
def UnlockSurface (d : CQuickSyncDecoder) (pSurface : SurfacePtr) : CQuickSyncDecoder :=
  if pSurface ∈ d.m_LockedSurfaces then
    ⟨d.m_OutputSurfaceQueue, d.m_LockedSurfaces.erase pSurface⟩
  else d

/-- Method `IsSurfaceLocked`: true when the surface's own lock counter is not
zero, otherwise whether the pointer is in `m_LockedSurfaces`. -/
def IsSurfaceLocked (d : CQuickSyncDecoder) (mem : SurfaceMemory) (pSurface : SurfacePtr) :
    Bool :=
  if 0 ≠ (mem pSurface).Data.Locked then true
  else decide (pSurface ∈ d.m_LockedSurfaces)

/-- Modelled from the spec: the body of `FindFreeSurface` (declared in
QuickSyncDecoder.h, defined outside the given sources). Scans the fixed pool
of surface pointers round-robin, starting from the last-assigned index
`m_nLastSurfaceId`, and returns the first surface for which `IsSurfaceLocked`
is false; returns none when every surface of the pool is claimed. -/
def FindFreeSurface (d : CQuickSyncDecoder) (mem : SurfaceMemory)
    (pool : List SurfacePtr) (m_nLastSurfaceId : Nat) : Option SurfacePtr :=
  (pool.rotate m_nLastSurfaceId).find? (fun pSurface => !d.IsSurfaceLocked mem pSurface)

end CQuickSyncDecoder

/-! ## Call sequences on the output surface queue -/

/-- One call on the decoder's output surface queue. -/
inductive SurfaceCall where
  | PushSurface (pSurface : SurfacePtr)
  | PopSurface
deriving DecidableEq, Repr

/-- Decoder after one output-queue call. -/
def stepSurfaceCall (d : CQuickSyncDecoder) : SurfaceCall → CQuickSyncDecoder
  | .PushSurface pSurface => d.PushSurface pSurface
  | .PopSurface => d.PopSurface.2

/-- Decoder after a sequence of output-queue calls, made in list order. -/
def runSurfaceCalls (d : CQuickSyncDecoder) : List SurfaceCall → CQuickSyncDecoder
  | [] => d
  | c :: cs => runSurfaceCalls (stepSurfaceCall d c) cs

/-- Surfaces given to the `PushSurface` calls of the sequence, in call order. -/
def pushedSurfaces : List SurfaceCall → List SurfacePtr
  | [] => []
  | .PushSurface pSurface :: cs => pSurface :: pushedSurfaces cs
  | .PopSurface :: cs => pushedSurfaces cs

/-- Surfaces returned by the `PopSurface` calls of the sequence that were made
on a non-empty queue, in call order. -/
def poppedSurfaces (d : CQuickSyncDecoder) : List SurfaceCall → List SurfacePtr
  | [] => []
  | .PushSurface pSurface :: cs => poppedSurfaces (d.PushSurface pSurface) cs
  | .PopSurface :: cs =>
    (if d.OutputQueueEmpty then [] else [d.PopSurface.1]) ++ poppedSurfaces d.PopSurface.2 cs

/-- Number of `PushSurface` calls in the sequence. -/
def pushSurfaceCount : List SurfaceCall → Nat
  | [] => 0
  | .PushSurface _ :: cs => pushSurfaceCount cs + 1
  | .PopSurface :: cs => pushSurfaceCount cs

/-- Number of `PopSurface` calls of the sequence made on a non-empty queue. -/
def popSurfaceCount (d : CQuickSyncDecoder) : List SurfaceCall → Nat
  | [] => 0
  | .PushSurface pSurface :: cs => popSurfaceCount (d.PushSurface pSurface) cs
  | .PopSurface :: cs =>
    (if d.OutputQueueEmpty then 0 else 1) + popSurfaceCount d.PopSurface.2 cs

/-! ## Basic facts about `Push` and `Pop` -/

namespace CQsThreadSafeQueue

theorem INFINITE_pos : INFINITE > 0 := by decide

/-- Every result of `Push`: a timed-out wait, or an append. -/
theorem Push_some (q : CQsThreadSafeQueue T) (item : T) (ms : Nat)
    (r : Bool × CQsThreadSafeQueue T) (h : q.Push item ms = some r) :
    (r = (false, q) ∧ ms > 0 ∧ q.m_CapacityEvent.m_bState = false) ∨
      (r.1 = true ∧ r.2.m_Queue = q.m_Queue ++ [item] ∧ r.2.m_Capacity = q.m_Capacity ∧
        (ms = 0 ∨ q.m_CapacityEvent.m_bState = true)) := by
  rcases q with ⟨l, C, ⟨ne, nm⟩, ⟨ce, cm⟩⟩
  by_cases hs : l.length + 1 = C <;> by_cases hi : ms = INFINITE
  · subst hi
    cases ce <;>
      simp [Push, WaitForCapacity, QsEvent.Wait, QsEvent.SetState, INFINITE_pos, hs] at h
    subst h
    simp
  · by_cases h0 : ms > 0 <;> cases ce <;>
      simp [Push, WaitForCapacity, QsEvent.Wait, QsEvent.SetState, h0, hi, hs] at h <;>
      subst h <;> simp <;> omega
  · subst hi
    cases ce <;>
      simp [Push, WaitForCapacity, QsEvent.Wait, QsEvent.SetState, INFINITE_pos, hs] at h
    subst h
    simp
  · by_cases h0 : ms > 0 <;> cases ce <;>
      simp [Push, WaitForCapacity, QsEvent.Wait, QsEvent.SetState, h0, hi, hs] at h <;>
      subst h <;> simp <;> omega

/-- Every result of `Pop`: a failure that keeps the deque, or the removal of
the front item. -/
theorem Pop_some (q : CQsThreadSafeQueue T) (res : T) (ms : Nat)
    (r : Bool × T × CQsThreadSafeQueue T) (h : q.Pop res ms = some r) :
    (r.1 = false ∧ r.2.1 = res ∧ r.2.2.m_Queue = q.m_Queue ∧
        r.2.2.m_Capacity = q.m_Capacity) ∨
      (r.1 = true ∧ q.m_Queue = r.2.1 :: r.2.2.m_Queue ∧ r.2.2.m_Capacity = q.m_Capacity) := by
  rcases q with ⟨l, C, ⟨ne, nm⟩, ⟨ce, cm⟩⟩
  cases l with
  | nil =>
    by_cases hi : ms = INFINITE
    · subst hi
      cases ne <;> simp [Pop, WaitForNotEmpty, QsEvent.Wait, INFINITE_pos] at h
      subst h
      simp
    · by_cases h0 : ms > 0 <;> cases ne <;>
        simp [Pop, WaitForNotEmpty, QsEvent.Wait, h0, hi] at h <;> subst h <;> simp
  | cons x rest =>
    by_cases hi : ms = INFINITE
    · subst hi
      cases ne <;> simp [Pop, WaitForNotEmpty, QsEvent.Wait, INFINITE_pos] at h
      split_ifs at h <;> subst h <;> simp
    · by_cases h0 : ms > 0 <;> cases ne <;>
        simp [Pop, WaitForNotEmpty, QsEvent.Wait, h0, hi] at h <;>
        (try split_ifs at h) <;> subst h <;> simp

theorem Push_queue (q : CQsThreadSafeQueue T) (item : T) (ms : Nat)
    (r : Bool × CQsThreadSafeQueue T) (h : q.Push item ms = some r) :
    r.2.m_Queue = q.m_Queue ++ (if r.1 then [item] else []) := by
  rcases Push_some q item ms r h with ⟨hr, _, _⟩ | ⟨h1, h2, _, _⟩
  · subst hr
    simp
  · simp [h1, h2]

theorem Pop_queue (q : CQsThreadSafeQueue T) (res : T) (ms : Nat)
    (r : Bool × T × CQsThreadSafeQueue T) (h : q.Pop res ms = some r) :
    q.m_Queue = (if r.1 then [r.2.1] else []) ++ r.2.2.m_Queue := by
  rcases Pop_some q res ms r h with ⟨h1, _, h3, _⟩ | ⟨h1, h2, _⟩
  · simp [h1, h3]
  · simp [h1, h2]

theorem Push_capacity (q : CQsThreadSafeQueue T) (item : T) (ms : Nat)
    (r : Bool × CQsThreadSafeQueue T) (h : q.Push item ms = some r) :
    r.2.m_Capacity = q.m_Capacity := by
  rcases Push_some q item ms r h with ⟨hr, _, _⟩ | ⟨_, _, h3, _⟩
  · subst hr
    rfl
  · exact h3

theorem Pop_capacity (q : CQsThreadSafeQueue T) (res : T) (ms : Nat)
    (r : Bool × T × CQsThreadSafeQueue T) (h : q.Pop res ms = some r) :
    r.2.2.m_Capacity = q.m_Capacity := by
  rcases Pop_some q res ms r h with ⟨_, _, _, h4⟩ | ⟨_, _, h3⟩
  · exact h4
  · exact h3

/-- A `Push` with a positive finite timeout on a cleared capacity signal times
out. -/
theorem Push_timeout (q : CQsThreadSafeQueue T) (item : T) (ms : Nat)
    (h0 : ms > 0) (hfin : ms ≠ INFINITE) (hc : q.m_CapacityEvent.m_bState = false) :
    q.Push item ms = some (false, q) := by
  simp [Push, WaitForCapacity, QsEvent.Wait, h0, hfin, hc]

/-- A `Push` with the timeout `INFINITE` on a cleared capacity signal never
returns. -/
theorem Push_blocked (q : CQsThreadSafeQueue T) (item : T)
    (hc : q.m_CapacityEvent.m_bState = false) :
    q.Push item INFINITE = none := by
  simp [Push, WaitForCapacity, QsEvent.Wait, hc, INFINITE]

/-- A `Push` that does not wait, or waits on a set manual-reset signal, appends. -/
theorem Push_append (q : CQsThreadSafeQueue T) (item : T) (ms : Nat)
    (hm : q.m_CapacityEvent.m_bManual = true)
    (h : ms = 0 ∨ q.m_CapacityEvent.m_bState = true) :
    q.Push item ms =
      some (true, ⟨q.m_Queue ++ [item], q.m_Capacity, ⟨true, q.m_NotEmptyEvent.m_bManual⟩,
        if q.m_Queue.length + 1 = q.m_Capacity then ⟨false, true⟩ else q.m_CapacityEvent⟩) := by
  rcases q with ⟨l, C, ⟨ne, nm⟩, ⟨ce, cm⟩⟩
  simp only at hm h
  subst hm
  by_cases h0 : ms > 0
  · have hc : ce = true := by
      rcases h with h | h
      · omega
      · exact h
    subst hc
    by_cases hs : l.length + 1 = C <;>
      simp [Push, WaitForCapacity, QsEvent.Wait, QsEvent.SetState, h0, hs]
  · by_cases hs : l.length + 1 = C <;>
      simp [Push, WaitForCapacity, QsEvent.Wait, QsEvent.SetState, h0, hs]

/-- A `Pop` with a positive finite timeout on a cleared not-empty signal times
out. -/
theorem Pop_timeout (q : CQsThreadSafeQueue T) (res : T) (ms : Nat)
    (h0 : ms > 0) (hfin : ms ≠ INFINITE) (hn : q.m_NotEmptyEvent.m_bState = false) :
    q.Pop res ms = some (false, res, q) := by
  simp [Pop, WaitForNotEmpty, QsEvent.Wait, h0, hfin, hn]

/-- A `Pop` with the timeout `INFINITE` on a cleared not-empty signal never
returns. -/
theorem Pop_blocked (q : CQsThreadSafeQueue T) (res : T)
    (hn : q.m_NotEmptyEvent.m_bState = false) :
    q.Pop res INFINITE = none := by
  simp [Pop, WaitForNotEmpty, QsEvent.Wait, hn, INFINITE]

/-- A `Pop` that returns on an empty deque whose not-empty signal is
manual-reset fails and changes nothing. -/
theorem Pop_nil (q : CQsThreadSafeQueue T) (res : T) (ms : Nat)
    (hm : q.m_NotEmptyEvent.m_bManual = true) (hq : q.m_Queue = [])
    (h : ms ≠ INFINITE ∨ q.m_NotEmptyEvent.m_bState = true) :
    q.Pop res ms = some (false, res, q) := by
  rcases q with ⟨l, C, ⟨ne, nm⟩, ⟨ce, cm⟩⟩
  simp only at hm hq h
  subst hm hq
  by_cases h0 : ms > 0 <;> cases ne <;> simp_all [Pop, WaitForNotEmpty, QsEvent.Wait]

/-- A `Pop` that does not wait, or waits on a set manual-reset signal, removes
the front of a non-empty deque. -/
theorem Pop_cons (q : CQsThreadSafeQueue T) (res : T) (ms : Nat) (x : T) (rest : List T)
    (hm : q.m_NotEmptyEvent.m_bManual = true) (hq : q.m_Queue = x :: rest)
    (h : ms = 0 ∨ q.m_NotEmptyEvent.m_bState = true) :
    q.Pop res ms =
      some (true, x, ⟨rest, q.m_Capacity,
        if rest.length = 0 then ⟨false, true⟩ else q.m_NotEmptyEvent,
        if rest.length = 0 then q.m_CapacityEvent
        else if rest.length = (q.m_Capacity + SIZE_T_MOD - 1) % SIZE_T_MOD then
          ⟨true, q.m_CapacityEvent.m_bManual⟩
        else q.m_CapacityEvent⟩) := by
  rcases q with ⟨l, C, ⟨ne, nm⟩, ⟨ce, cm⟩⟩
  simp only at hm hq h
  subst hm hq
  have hw : (if ms > 0 then
        (⟨x :: rest, C, ⟨ne, true⟩, ⟨ce, cm⟩⟩ : CQsThreadSafeQueue T).WaitForNotEmpty ms
      else some (true, ⟨x :: rest, C, ⟨ne, true⟩, ⟨ce, cm⟩⟩)) =
      some (true, ⟨x :: rest, C, ⟨ne, true⟩, ⟨ce, cm⟩⟩) := by
    by_cases h0 : ms > 0
    · have hn : ne = true := by
        rcases h with h | h
        · omega
        · exact h
      subst hn
      simp [h0, WaitForNotEmpty, QsEvent.Wait]
    · simp [h0]
  unfold Pop
  rw [hw]
  simp only [Option.map_some', Bool.not_true, Bool.false_eq_true, if_false, QsEvent.SetState]
  by_cases hs : rest.length = 0
  · simp only [if_pos hs]
  · by_cases hk : rest.length = (C + SIZE_T_MOD - 1) % SIZE_T_MOD
    · simp only [if_neg hs, if_pos hk, if_true]
    · simp only [if_neg hs, if_neg hk]

end CQsThreadSafeQueue

theorem accepted_delivered (cs : List (QueueCall T)) :
    ∀ q : CQsThreadSafeQueue T,
      q.m_Queue ++ acceptedItems q cs = deliveredItems q cs ++ (runCalls q cs).m_Queue := by
  induction cs with
  | nil => intro q; simp [acceptedItems, deliveredItems, runCalls]
  | cons c cs ih =>
    intro q
    cases c with
    | Push item ms =>
      cases hp : q.Push item ms with
      | none => simp [acceptedItems, deliveredItems, runCalls, stepCall, hp]
      | some r =>
        simp only [acceptedItems, deliveredItems, runCalls, stepCall, hp, Option.map_some']
        rw [← ih, CQsThreadSafeQueue.Push_queue q item ms r hp, List.append_assoc]
    | Pop res ms =>
      cases hp : q.Pop res ms with
      | none => simp [acceptedItems, deliveredItems, runCalls, stepCall, hp]
      | some r =>
        simp only [acceptedItems, deliveredItems, runCalls, stepCall, hp, Option.map_some']
        rw [List.append_assoc, ← ih, ← List.append_assoc,
          ← CQsThreadSafeQueue.Pop_queue q res ms r hp]

/-- A property of queues kept by every call that returns holds after every
call sequence. -/
theorem runCalls_preserves (P : CQsThreadSafeQueue T → Prop)
    (hstep : ∀ q c q1, stepCall q c = some q1 → P q → P q1) :
    ∀ (cs : List (QueueCall T)) (q : CQsThreadSafeQueue T), P q → P (runCalls q cs) := by
  intro cs
  induction cs with
  | nil => intro q hq; exact hq
  | cons c cs ih =>
    intro q hq
    cases hs : stepCall q c with
    | none => simpa [runCalls, hs] using hq
    | some q1 =>
      simp only [runCalls, hs]
      exact ih q1 (hstep q c q1 hs hq)

theorem stepCall_capacity (q : CQsThreadSafeQueue T) (c : QueueCall T)
    (q1 : CQsThreadSafeQueue T) (h : stepCall q c = some q1) :
    q1.m_Capacity = q.m_Capacity := by
  cases c with
  | Push item ms =>
    simp only [stepCall, Option.map_eq_some'] at h
    obtain ⟨r, hr, rfl⟩ := h
    exact CQsThreadSafeQueue.Push_capacity q item ms r hr
  | Pop res ms =>
    simp only [stepCall, Option.map_eq_some'] at h
    obtain ⟨r, hr, rfl⟩ := h
    exact CQsThreadSafeQueue.Pop_capacity q res ms r hr

theorem runCalls_capacity (cs : List (QueueCall T)) (q : CQsThreadSafeQueue T) :
    (runCalls q cs).m_Capacity = q.m_Capacity :=
  runCalls_preserves (fun s => s.m_Capacity = q.m_Capacity)
    (fun s c s1 h hs => (stepCall_capacity s c s1 h).trans hs) cs q rfl

theorem create_manual (C : Nat) : ManualEvents (CQsThreadSafeQueue.create C : CQsThreadSafeQueue T) := by
  simp [ManualEvents, CQsThreadSafeQueue.create, QsEvent.create]

theorem create_notEmptyGate (C : Nat) :
    NotEmptyGate (CQsThreadSafeQueue.create C : CQsThreadSafeQueue T) := by
  simp [NotEmptyGate, CQsThreadSafeQueue.create, QsEvent.create]

theorem wrap_pred_lt (C : Nat) (hC : 1 ≤ C) :
    (C + SIZE_T_MOD - 1) % SIZE_T_MOD < C := by
  unfold SIZE_T_MOD
  omega

theorem wrap_pred_eq (C : Nat) (hC : 1 ≤ C) (hM : C < SIZE_T_MOD) :
    (C + SIZE_T_MOD - 1) % SIZE_T_MOD = C - 1 := by
  unfold SIZE_T_MOD at *
  omega

/-- Case analysis of one call that returns, on a queue with manual-reset
signals: the call leaves the queue as it is, or it is an effective `Push`, or
an effective `Pop`. -/
theorem stepCall_cases (P : CQsThreadSafeQueue T → Prop) (q : CQsThreadSafeQueue T)
    (c : QueueCall T) (hm : ManualEvents q) (hq : P q)
    (hpush : ∀ item ms, c = .Push item ms →
      (ms = 0 ∨ q.m_CapacityEvent.m_bState = true) → P (afterPush q item))
    (hpop : ∀ x rest, q.m_Queue = x :: rest → P (afterPop q rest))
    (q1 : CQsThreadSafeQueue T) (h1 : stepCall q c = some q1) :
    P q1 := by
  cases c with
  | Push item ms =>
    by_cases hgo : ms = 0 ∨ q.m_CapacityEvent.m_bState = true
    · simp only [stepCall, CQsThreadSafeQueue.Push_append q item ms hm.2 hgo,
        Option.map_some', Option.some.injEq] at h1
      subst h1
      exact hpush item ms rfl hgo
    · have h0 : ms > 0 := by omega
      have hc : q.m_CapacityEvent.m_bState = false := by
        cases hb : q.m_CapacityEvent.m_bState
        · rfl
        · exact absurd (Or.inr hb) hgo
      by_cases hi : ms = INFINITE
      · subst hi
        simp [stepCall, CQsThreadSafeQueue.Push_blocked q item hc] at h1
      · simp only [stepCall, CQsThreadSafeQueue.Push_timeout q item ms h0 hi hc,
          Option.map_some', Option.some.injEq] at h1
        subst h1
        exact hq
  | Pop res ms =>
    cases hl : q.m_Queue with
    | nil =>
      by_cases hret : ms ≠ INFINITE ∨ q.m_NotEmptyEvent.m_bState = true
      · simp only [stepCall, CQsThreadSafeQueue.Pop_nil q res ms hm.1 hl hret,
          Option.map_some', Option.some.injEq] at h1
        subst h1
        exact hq
      · have hi : ms = INFINITE := by
          by_contra hne
          exact hret (Or.inl hne)
        have hc : q.m_NotEmptyEvent.m_bState = false := by
          cases hb : q.m_NotEmptyEvent.m_bState
          · rfl
          · exact absurd (Or.inr hb) hret
        subst hi
        simp [stepCall, CQsThreadSafeQueue.Pop_blocked q res hc] at h1
    | cons x rest =>
      by_cases hgo : ms = 0 ∨ q.m_NotEmptyEvent.m_bState = true
      · simp only [stepCall, CQsThreadSafeQueue.Pop_cons q res ms x rest hm.1 hl hgo,
          Option.map_some', Option.some.injEq] at h1
        subst h1
        exact hpop x rest hl
      · have h0 : ms > 0 := by omega
        have hc : q.m_NotEmptyEvent.m_bState = false := by
          cases hb : q.m_NotEmptyEvent.m_bState
          · rfl
          · exact absurd (Or.inr hb) hgo
        by_cases hi : ms = INFINITE
        · subst hi
          simp [stepCall, CQsThreadSafeQueue.Pop_blocked q res hc] at h1
        · simp only [stepCall, CQsThreadSafeQueue.Pop_timeout q res ms h0 hi hc,
            Option.map_some', Option.some.injEq] at h1
          subst h1
          exact hq

theorem stepCall_manual (q : CQsThreadSafeQueue T) (c : QueueCall T)
    (q1 : CQsThreadSafeQueue T) (h1 : stepCall q c = some q1)
    (h : ManualEvents q) : ManualEvents q1 := by
  apply stepCall_cases ManualEvents q c h h ?_ ?_ q1 h1
  · intro item ms _ _
    simp only [ManualEvents, afterPush]
    refine ⟨h.1, ?_⟩
    split_ifs
    · rfl
    · exact h.2
  · intro x rest _
    simp only [ManualEvents, afterPop]
    constructor
    · split_ifs
      · rfl
      · exact h.1
    · split_ifs
      · exact h.2
      · exact h.2
      · exact h.2

theorem stepCall_notEmptyGate (q : CQsThreadSafeQueue T) (c : QueueCall T)
    (q1 : CQsThreadSafeQueue T) (h1 : stepCall q c = some q1)
    (h : ManualEvents q ∧ NotEmptyGate q) :
    ManualEvents q1 ∧ NotEmptyGate q1 := by
  refine ⟨stepCall_manual q c q1 h1 h.1, ?_⟩
  have hg := h.2
  apply stepCall_cases NotEmptyGate q c h.1 h.2 ?_ ?_ q1 h1
  · intro item ms _ _
    simp [NotEmptyGate, afterPush]
  · intro x rest hl
    simp only [NotEmptyGate, afterPop, hl] at hg ⊢
    split_ifs with hr
    · simp only [Bool.false_eq_true, false_iff, not_not]
      exact List.length_eq_zero.mp hr
    · have hne : rest ≠ [] := fun hnil => hr (by rw [hnil]; rfl)
      simp [hg, hne]

theorem stepCall_capacityGateSound (q : CQsThreadSafeQueue T) (c : QueueCall T)
    (q1 : CQsThreadSafeQueue T) (h1 : stepCall q c = some q1)
    (hC : 1 ≤ q.m_Capacity) (h : ManualEvents q ∧ CapacityGateSound q) :
    ManualEvents q1 ∧ CapacityGateSound q1 := by
  refine ⟨stepCall_manual q c q1 h1 h.1, ?_⟩
  have hw := wrap_pred_lt q.m_Capacity hC
  have hs := h.2
  apply stepCall_cases CapacityGateSound q c h.1 h.2 ?_ ?_ q1 h1
  · intro item ms _ _
    simp only [CapacityGateSound, afterPush, List.length_append, List.length_singleton] at hs ⊢
    split_ifs with h1
    · simp
    · intro hc
      have := hs hc
      omega
  · intro x rest hl
    simp only [CapacityGateSound, afterPop, hl, List.length_cons] at hs ⊢
    split_ifs with h1 h2
    · intro hc
      have := hs hc
      omega
    · intro _
      omega
    · intro hc
      have := hs hc
      omega

theorem stepCall_capacityGate (q : CQsThreadSafeQueue T) (c : QueueCall T)
    (q1 : CQsThreadSafeQueue T) (h1 : stepCall q c = some q1)
    (hC : 2 ≤ q.m_Capacity) (hM : q.m_Capacity < SIZE_T_MOD)
    (h : ManualEvents q ∧ CapacityGate q) :
    ManualEvents q1 ∧ CapacityGate q1 := by
  refine ⟨stepCall_manual q c q1 h1 h.1, ?_⟩
  have hw := wrap_pred_eq q.m_Capacity (by omega) hM
  have hs := h.2
  apply stepCall_cases CapacityGate q c h.1 h.2 ?_ ?_ q1 h1
  · intro item ms _ _
    simp only [CapacityGate, afterPush, List.length_append, List.length_singleton] at hs ⊢
    split_ifs with h1
    · simp only [Bool.false_eq_true, false_iff]
      omega
    · rw [hs]
      omega
  · intro x rest hl
    simp only [CapacityGate, afterPop, hl, List.length_cons, hw] at hs ⊢
    split_ifs with h1 h2
    · rw [hs]
      omega
    · simp only [true_iff]
      omega
    · rw [hs]
      omega

/-- With a positive capacity, calls keep the deque within capacity as long
as every `Push` waits for capacity. -/
theorem stepCall_bounded (q : CQsThreadSafeQueue T) (c : QueueCall T)
    (q1 : CQsThreadSafeQueue T) (h1 : stepCall q c = some q1)
    (hC : 1 ≤ q.m_Capacity) (hc : pushesWait [c] = true)
    (h : ManualEvents q ∧ CapacityGateSound q ∧ q.m_Queue.length ≤ q.m_Capacity) :
    ManualEvents q1 ∧ CapacityGateSound q1 ∧ q1.m_Queue.length ≤ q1.m_Capacity := by
  obtain ⟨hm, hs, hb⟩ := h
  refine ⟨stepCall_manual q c q1 h1 hm,
    (stepCall_capacityGateSound q c q1 h1 hC ⟨hm, hs⟩).2, ?_⟩
  apply stepCall_cases (fun s => s.m_Queue.length ≤ s.m_Capacity) q c hm hb ?_ ?_ q1 h1
  · intro item ms hci hgo
    subst hci
    simp only [pushesWait, Bool.and_true, decide_eq_true_eq] at hc
    have hlt : q.m_Queue.length < q.m_Capacity := by
      rcases hgo with h0 | h1
      · omega
      · exact hs h1
    simp only [afterPush, List.length_append, List.length_singleton]
    omega
  · intro x rest hl
    simp only [afterPop]
    rw [hl, List.length_cons] at hb
    omega

theorem pushesWait_cons (c : QueueCall T) (cs : List (QueueCall T)) :
    pushesWait (c :: cs) = (pushesWait [c] && pushesWait cs) := by
  cases c <;> simp [pushesWait]

/-! ## Invariants of the states reached from a new queue -/

theorem reach_manual_notEmptyGate (C : Nat) (cs : List (QueueCall T)) :
    ManualEvents (runCalls (CQsThreadSafeQueue.create C) cs) ∧
      NotEmptyGate (runCalls (CQsThreadSafeQueue.create C) cs) :=
  runCalls_preserves (fun s => ManualEvents s ∧ NotEmptyGate s)
    stepCall_notEmptyGate cs _ ⟨create_manual C, create_notEmptyGate C⟩

theorem reach_capacityGateSound (C : Nat) (hC : 1 ≤ C) (cs : List (QueueCall T)) :
    CapacityGateSound (runCalls (CQsThreadSafeQueue.create C) cs) := by
  have key := runCalls_preserves
    (fun s : CQsThreadSafeQueue T => s.m_Capacity = C ∧ ManualEvents s ∧ CapacityGateSound s)
    (fun s c s1 h1 hs => ⟨(stepCall_capacity s c s1 h1).trans hs.1,
      stepCall_capacityGateSound s c s1 h1 (by rw [hs.1]; exact hC) hs.2⟩)
    cs (CQsThreadSafeQueue.create C)
    ⟨rfl, create_manual C, by
      intro _
      simpa [CQsThreadSafeQueue.create] using hC⟩
  exact key.2.2

theorem reach_capacityGate (C : Nat) (hC : 2 ≤ C) (hM : C < SIZE_T_MOD)
    (cs : List (QueueCall T)) :
    CapacityGate (runCalls (CQsThreadSafeQueue.create C) cs) := by
  have key := runCalls_preserves
    (fun s : CQsThreadSafeQueue T => s.m_Capacity = C ∧ ManualEvents s ∧ CapacityGate s)
    (fun s c s1 h1 hs => ⟨(stepCall_capacity s c s1 h1).trans hs.1,
      stepCall_capacityGate s c s1 h1 (by rw [hs.1]; exact hC) (by rw [hs.1]; exact hM) hs.2⟩)
    cs (CQsThreadSafeQueue.create C)
    ⟨rfl, create_manual C, by
      simp only [CapacityGate, CQsThreadSafeQueue.create, QsEvent.create, List.length_nil,
        true_iff]
      omega⟩
  exact key.2.2

/-- With capacity 0 no call ever clears the capacity signal. -/
theorem reach_capacityZero (cs : List (QueueCall T)) :
    (runCalls (CQsThreadSafeQueue.create 0 : CQsThreadSafeQueue T) cs).m_CapacityEvent.m_bState
      = true := by
  have key := runCalls_preserves
    (fun s : CQsThreadSafeQueue T =>
      s.m_Capacity = 0 ∧ ManualEvents s ∧ s.m_CapacityEvent.m_bState = true)
    (fun s c s1 h1 hs => by
      refine ⟨(stepCall_capacity s c s1 h1).trans hs.1, stepCall_manual s c s1 h1 hs.2.1, ?_⟩
      apply stepCall_cases (fun r => r.m_CapacityEvent.m_bState = true) s c hs.2.1 hs.2.2
        ?_ ?_ s1 h1
      · intro item ms _ _
        simp only [afterPush, hs.1]
        rw [if_neg (Nat.succ_ne_zero _)]
        exact hs.2.2
      · intro x rest _
        simp only [afterPop]
        split_ifs
        · exact hs.2.2
        · rfl
        · exact hs.2.2)
    cs (CQsThreadSafeQueue.create 0) ⟨rfl, create_manual 0, rfl⟩
  exact key.2.2

theorem runCalls_bounded (cs : List (QueueCall T)) :
    ∀ q : CQsThreadSafeQueue T, 1 ≤ q.m_Capacity → pushesWait cs = true →
      ManualEvents q ∧ CapacityGateSound q ∧ q.m_Queue.length ≤ q.m_Capacity →
      (runCalls q cs).m_Queue.length ≤ (runCalls q cs).m_Capacity := by
  induction cs with
  | nil => intro q _ _ h; exact h.2.2
  | cons c cs ih =>
    intro q hC hw h
    rw [pushesWait_cons, Bool.and_eq_true] at hw
    cases hs : stepCall q c with
    | none => simpa [runCalls, hs] using h.2.2
    | some q1 =>
      simp only [runCalls, hs]
      exact ih q1 (by rw [stepCall_capacity q c q1 hs]; exact hC) hw.2
        (stepCall_bounded q c q1 hs hC hw.1 h)

theorem reach_bounded (C : Nat) (hC : 1 ≤ C) (cs : List (QueueCall T))
    (hw : pushesWait cs = true) :
    (runCalls (CQsThreadSafeQueue.create C : CQsThreadSafeQueue T) cs).m_Queue.length ≤ C := by
  have h := runCalls_bounded cs (CQsThreadSafeQueue.create C) hC hw
    ⟨create_manual C, by
      intro _
      simpa [CQsThreadSafeQueue.create] using hC, by
      simp [CQsThreadSafeQueue.create]⟩
  rwa [runCalls_capacity] at h

/-! ## The bounded queue: order, gates, bounds -/

section QueueClaims

open CQsThreadSafeQueue

/-- C1: FIFO order. For every capacity and every sequence of Push and Pop calls
on a new queue, the items of the Push calls that returned true are the items
delivered by the Pop calls that returned true, in call order, followed by the
remaining content of the queue front to back; and every Pop that returns true
(in any state) delivers the front item of the deque and removes exactly it. -/
theorem C1_fifo_order (C : Nat) (cs : List (QueueCall T)) :
    acceptedItems (create C) cs =
        deliveredItems (create C) cs ++ (runCalls (create C) cs).m_Queue ∧
      ∀ (q : CQsThreadSafeQueue T) (res : T) (ms : Nat) (r : Bool × T × CQsThreadSafeQueue T),
        q.Pop res ms = some r → r.1 = true → q.m_Queue = r.2.1 :: r.2.2.m_Queue := by
  constructor
  · have h := accepted_delivered cs (create C)
    simpa [create] using h
  · intro q res ms r hr hok
    have h := Pop_queue q res ms r hr
    rw [if_pos hok] at h
    simpa using h

theorem C1_fifo_order_witness :
    (runCalls (create 2 : CQsThreadSafeQueue Nat) [.Push 7 0]).m_Queue =
      7 :: (runCalls (create 2 : CQsThreadSafeQueue Nat) [.Push 7 0, .Pop 0 1]).m_Queue :=
  (C1_fifo_order 2 []).2 (runCalls (create 2 : CQsThreadSafeQueue Nat) [.Push 7 0]) 0 1
    (true, 7, runCalls (create 2 : CQsThreadSafeQueue Nat) [.Push 7 0, .Pop 0 1])
    (by decide) rfl

/-- C2 (as stated) fails: a new queue of capacity 0 has its capacity signal set
although 0 items is not fewer than 0; and at capacity 1, after one Push and one
Pop the queue is empty while the capacity signal stays cleared. -/
theorem C2_counterexample :
    ((runCalls (create 0 : CQsThreadSafeQueue Nat) []).m_CapacityEvent.m_bState = true ∧
      ¬ (runCalls (create 0 : CQsThreadSafeQueue Nat) []).m_Queue.length < 0) ∧
    ((runCalls (create 1 : CQsThreadSafeQueue Nat)
        [.Push 7 1, .Pop 0 1]).m_CapacityEvent.m_bState = false ∧
      (runCalls (create 1 : CQsThreadSafeQueue Nat) [.Push 7 1, .Pop 0 1]).m_Queue.length < 1) := by
  decide

/-- C2 (amended): for every capacity C and every state reached from a new queue
by Push and Pop calls with any timeouts: when 1 ≤ C, a set capacity signal
implies that fewer than C items are queued; when 2 ≤ C, the capacity signal is
set if and only if fewer than C items are queued; and when C = 0 the capacity
signal is set in every reached state. -/
theorem C2_capacity_gate (C : Nat) (hM : C < SIZE_T_MOD) (cs : List (QueueCall T)) :
    (1 ≤ C → (runCalls (create C) cs).m_CapacityEvent.m_bState = true →
        (runCalls (create C) cs).Size < C) ∧
      (2 ≤ C →
        ((runCalls (create C) cs).m_CapacityEvent.m_bState = true ↔
          (runCalls (create C) cs).Size < C)) ∧
      (C = 0 → (runCalls (create C) cs).m_CapacityEvent.m_bState = true) := by
  refine ⟨?_, ?_, ?_⟩
  · intro hC h
    have hs := reach_capacityGateSound C hC cs h
    rwa [runCalls_capacity] at hs
  · intro h2
    have hg := reach_capacityGate C h2 hM cs
    simp only [CapacityGate, runCalls_capacity] at hg
    exact hg
  · intro h0
    subst h0
    exact reach_capacityZero cs

theorem C2_capacity_gate_witness :
    2 < SIZE_T_MOD ∧ 2 ≤ 2 ∧
      ((runCalls (create 2 : CQsThreadSafeQueue Nat)
          [.Push 7 0, .Push 8 0, .Push 9 0, .Pop 0 1]).m_CapacityEvent.m_bState = true ↔
        (runCalls (create 2 : CQsThreadSafeQueue Nat)
          [.Push 7 0, .Push 8 0, .Push 9 0, .Pop 0 1]).Size < 2) :=
  ⟨by decide, by decide,
    (C2_capacity_gate 2 (by decide) [.Push 7 0, .Push 8 0, .Push 9 0, .Pop 0 1]).2.1
      (by decide)⟩

/-- C3: not-empty gate. For every capacity and every state reached from a new
queue by Push and Pop calls with any timeouts, the not-empty signal is set if
and only if the queue holds at least one item. -/
theorem C3_not_empty_gate (C : Nat) (cs : List (QueueCall T)) :
    (runCalls (create C) cs).m_NotEmptyEvent.m_bState = true ↔
      1 ≤ (runCalls (create C) cs).Size := by
  have h := (reach_manual_notEmptyGate C cs).2
  simp only [NotEmptyGate] at h
  rw [h, Size, Nat.one_le_iff_ne_zero]
  exact not_congr List.length_eq_zero.symm

/-- C4: the backpressure release fails at capacity 1. One Push fills the new
queue, the Pop that follows succeeds and empties it, but the capacity signal
stays cleared, so the next Push with a positive timeout returns false and
appends nothing. -/
theorem C4_release_missed_at_capacity_one :
    (runCalls (create 1 : CQsThreadSafeQueue Nat) [.Push 7 1]).Size = 1 ∧
    (runCalls (create 1 : CQsThreadSafeQueue Nat) [.Push 7 1]).Pop 0 1 =
      some (true, 7, runCalls (create 1 : CQsThreadSafeQueue Nat) [.Push 7 1, .Pop 0 1]) ∧
    (runCalls (create 1 : CQsThreadSafeQueue Nat) [.Push 7 1, .Pop 0 1]).Size = 0 ∧
    (runCalls (create 1 : CQsThreadSafeQueue Nat)
      [.Push 7 1, .Pop 0 1]).m_CapacityEvent.m_bState = false ∧
    (runCalls (create 1 : CQsThreadSafeQueue Nat) [.Push 7 1, .Pop 0 1]).Push 8 1 =
      some (false, runCalls (create 1 : CQsThreadSafeQueue Nat) [.Push 7 1, .Pop 0 1]) := by
  decide

/-- The backpressure release works from capacity 2 on: in every reached state
that holds exactly C items, a Pop returns true and the next Push, whatever its
timeout, returns true and appends its item. -/
theorem release_of_two_le (C : Nat) (hC : 2 ≤ C) (hM : C < SIZE_T_MOD)
    (cs : List (QueueCall T)) (hfull : (runCalls (create C) cs).Size = C)
    (res item : T) (tpop t : Nat) :
    ∃ (x : T) (s1 s2 : CQsThreadSafeQueue T),
      (runCalls (create C) cs).Pop res tpop = some (true, x, s1) ∧
        s1.Push item t = some (true, s2) ∧ s2.m_Queue = s1.m_Queue ++ [item] := by
  have hinv := reach_manual_notEmptyGate C cs
  have hcap := runCalls_capacity cs (create C : CQsThreadSafeQueue T)
  have hg0 := reach_capacityGate C hC hM cs
  generalize runCalls (create C) cs = s at *
  simp only [create] at hcap
  cases hl : s.m_Queue with
  | nil => simp [Size, hl] at hfull; omega
  | cons x rest =>
    have hne : s.m_NotEmptyEvent.m_bState = true := by
      apply hinv.2.mpr
      rw [hl]
      exact List.cons_ne_nil x rest
    have hpop := Pop_cons s res tpop x rest hinv.1.1 hl (Or.inr hne)
    have hstep : stepCall s (.Pop res tpop) = some (afterPop s rest) := by
      simp only [stepCall, hpop, Option.map_some', afterPop]
    have hgate := stepCall_capacityGate s (.Pop res tpop) _ hstep
      (by rw [hcap]; exact hC) (by rw [hcap]; exact hM) ⟨hinv.1, hg0⟩
    have hlen : rest.length + 1 = C := by simpa [Size, hl] using hfull
    have hset : (afterPop s rest).m_CapacityEvent.m_bState = true := by
      apply hgate.2.mpr
      simp only [afterPop]
      omega
    have hpush := Push_append (afterPop s rest) item t hgate.1.2 (Or.inr hset)
    exact ⟨x, afterPop s rest, _, hpop, hpush, rfl⟩

/-- C5 (as stated) fails: at capacity 1 two Push calls with timeout 0 leave two
items queued; and a queue of capacity 0 accepts a Push with a positive timeout. -/
theorem C5_counterexample :
    ¬ (runCalls (create 1 : CQsThreadSafeQueue Nat) [.Push 7 0, .Push 8 0]).Size ≤ 1 ∧
    ¬ (runCalls (create 0 : CQsThreadSafeQueue Nat) [.Push 7 1]).Size ≤ 0 := by
  decide

/-- C5 (amended): for every capacity C with 1 ≤ C, every state reached from a
new queue by Pop calls (any timeout) and Push calls that all use a positive
timeout has Size() ≤ C. -/
theorem C5_size_bound (C : Nat) (hC : 1 ≤ C) (cs : List (QueueCall T))
    (hw : pushesWait cs = true) :
    (runCalls (create C) cs).Size ≤ C :=
  reach_bounded C hC cs hw

theorem C5_size_bound_witness :
    1 ≤ 1 ∧ pushesWait [QueueCall.Push 7 1, .Push 8 2, .Pop 0 0, .Push 9 3] = true ∧
      (runCalls (create 1 : CQsThreadSafeQueue Nat)
        [.Push 7 1, .Push 8 2, .Pop 0 0, .Push 9 3]).Size ≤ 1 :=
  ⟨by decide, by decide, C5_size_bound 1 (by decide) _ (by decide)⟩

/-- C6 (as stated) fails: a new queue of capacity 0 has Size() equal to its
capacity, yet Push with a positive timeout returns true and appends; and on a
full queue of capacity 1, Push with the positive timeout INFINITE never
returns, so it does not return false. -/
theorem C6_counterexample :
    ((runCalls (create 0 : CQsThreadSafeQueue Nat) []).Size = 0 ∧
      (runCalls (create 0 : CQsThreadSafeQueue Nat) []).Push 7 1 =
        some (true, runCalls (create 0 : CQsThreadSafeQueue Nat) [.Push 7 1]) ∧
      (runCalls (create 0 : CQsThreadSafeQueue Nat) [.Push 7 1]).m_Queue = [7]) ∧
    ((runCalls (create 1 : CQsThreadSafeQueue Nat) [.Push 7 1]).Size = 1 ∧
      INFINITE > 0 ∧
      (runCalls (create 1 : CQsThreadSafeQueue Nat) [.Push 7 1]).Push 8 INFINITE = none) := by
  decide

/-- C6 (amended): for every capacity C with 1 ≤ C and every state reached from a
new queue in which Size() equals C, Push with a positive timeout other than
INFINITE returns false and leaves the queued items and both signals as they
were; Push with the timeout INFINITE never returns. -/
theorem C6_push_full_fails (C : Nat) (hC : 1 ≤ C) (cs : List (QueueCall T))
    (hfull : (runCalls (create C) cs).Size = C) (item : T) (t : Nat) (ht : t > 0)
    (hfin : t ≠ INFINITE) :
    (runCalls (create C) cs).Push item t = some (false, runCalls (create C) cs) ∧
      (runCalls (create C) cs).Push item INFINITE = none := by
  have hcl : (runCalls (create C) cs).m_CapacityEvent.m_bState = false := by
    have hs := reach_capacityGateSound C hC cs
    simp only [CapacityGateSound, runCalls_capacity] at hs
    cases hb : (runCalls (create C) cs).m_CapacityEvent.m_bState
    · rfl
    · have := hs hb
      simp only [Size, create] at hfull this
      omega
  exact ⟨Push_timeout _ item t ht hfin hcl, Push_blocked _ item hcl⟩

theorem C6_push_full_fails_witness :
    1 ≤ 2 ∧ (runCalls (create 2 : CQsThreadSafeQueue Nat) [.Push 7 1, .Push 8 1]).Size = 2 ∧
      3 > 0 ∧ 3 ≠ INFINITE ∧
      ((runCalls (create 2 : CQsThreadSafeQueue Nat) [.Push 7 1, .Push 8 1]).Push 9 3 =
          some (false, runCalls (create 2 : CQsThreadSafeQueue Nat) [.Push 7 1, .Push 8 1]) ∧
        (runCalls (create 2 : CQsThreadSafeQueue Nat) [.Push 7 1, .Push 8 1]).Push 9 INFINITE =
          none) :=
  ⟨by decide, by decide, by decide, by decide,
    C6_push_full_fails 2 (by decide) [.Push 7 1, .Push 8 1] (by decide) 9 3 (by decide)
      (by decide)⟩

/-- C7: zero-timeout override of Push. In every state of a queue, Push with
timeout 0 returns true, appends the item at the back of the items already
queued, keeps the capacity and increases Size() by exactly one; on a full
queue Size() becomes capacity + 1. -/
theorem C7_push_zero_timeout (q : CQsThreadSafeQueue T) (item : T) :
    ∃ q1 : CQsThreadSafeQueue T,
      q.Push item 0 = some (true, q1) ∧
        q1.m_Queue = q.m_Queue ++ [item] ∧
        q1.GetCapacity = q.GetCapacity ∧
        q1.Size = q.Size + 1 ∧
        (q.Size = q.GetCapacity → q1.Size = q.GetCapacity + 1) := by
  cases hp : q.Push item 0 with
  | none => simp [Push] at hp
  | some r =>
    rcases Push_some q item 0 r hp with ⟨_, h0, _⟩ | ⟨h1, h2, h3, _⟩
    · omega
    · refine ⟨r.2, ?_, h2, h3, ?_, ?_⟩
      · rw [← h1]
      · simp [Size, h2]
      · intro hfull
        simp only [Size, GetCapacity] at hfull ⊢
        simp [h2, hfull]

theorem C7_push_zero_timeout_witness :
    (runCalls (create 1 : CQsThreadSafeQueue Nat) [.Push 7 1]).Size =
        (runCalls (create 1 : CQsThreadSafeQueue Nat) [.Push 7 1]).GetCapacity ∧
      ∃ q1 : CQsThreadSafeQueue Nat,
        (runCalls (create 1 : CQsThreadSafeQueue Nat) [.Push 7 1]).Push 8 0 = some (true, q1) ∧
          q1.Size = (runCalls (create 1 : CQsThreadSafeQueue Nat) [.Push 7 1]).GetCapacity + 1 :=
  ⟨by decide,
    (C7_push_zero_timeout (runCalls (create 1 : CQsThreadSafeQueue Nat) [.Push 7 1]) 8).elim
      fun q1 h => ⟨q1, h.1, h.2.2.2.2 (by decide)⟩⟩

/-- C8 (as stated) fails: on a new, empty queue Pop with the timeout INFINITE
never returns, so it does not return false. -/
theorem C8_counterexample :
    (runCalls (create 1 : CQsThreadSafeQueue Nat) []).Empty = true ∧
      (runCalls (create 1 : CQsThreadSafeQueue Nat) []).Pop 5 INFINITE = none ∧
      (runCalls (create 1 : CQsThreadSafeQueue Nat) []).Pop 5 INFINITE ≠
        some (false, 5, runCalls (create 1 : CQsThreadSafeQueue Nat) []) := by
  decide

/-- C8 (amended): Pop on an empty queue fails atomically unless it waits
forever. In every state reached from a new queue in which the queue is empty,
Pop with any timeout other than INFINITE (zero or positive) returns false,
leaves `res` as it was and leaves the deque and both signals unchanged; Pop
with the timeout INFINITE never returns. -/
theorem C8_pop_empty_fails (C : Nat) (cs : List (QueueCall T))
    (hempty : (runCalls (create C) cs).Empty = true) (res : T) (t : Nat)
    (hfin : t ≠ INFINITE) :
    (runCalls (create C) cs).Pop res t = some (false, res, runCalls (create C) cs) ∧
      (runCalls (create C) cs).Pop res INFINITE = none := by
  have hinv := reach_manual_notEmptyGate C cs
  have hnil : (runCalls (create C) cs).m_Queue = [] := by
    simpa [CQsThreadSafeQueue.Empty] using hempty
  have hcl : (runCalls (create C) cs).m_NotEmptyEvent.m_bState = false := by
    cases hb : (runCalls (create C) cs).m_NotEmptyEvent.m_bState
    · rfl
    · exact absurd hnil (hinv.2.mp hb)
  exact ⟨Pop_nil _ res t hinv.1.1 hnil (Or.inl hfin), Pop_blocked _ res hcl⟩

theorem C8_pop_empty_fails_witness :
    (runCalls (create 1 : CQsThreadSafeQueue Nat) [.Push 7 1, .Pop 0 1]).Empty = true ∧
      3 ≠ INFINITE ∧
      ((runCalls (create 1 : CQsThreadSafeQueue Nat) [.Push 7 1, .Pop 0 1]).Pop 5 3 =
          some (false, 5, runCalls (create 1 : CQsThreadSafeQueue Nat) [.Push 7 1, .Pop 0 1]) ∧
        (runCalls (create 1 : CQsThreadSafeQueue Nat) [.Push 7 1, .Pop 0 1]).Pop 5 INFINITE =
          none) :=
  ⟨by decide, by decide,
    C8_pop_empty_fails 1 [.Push 7 1, .Pop 0 1] (by decide) 5 3 (by decide)⟩

/-- C9 (as stated) fails: at capacity 1, after two Push calls with timeout 0,
HasCapacity() returns false although Size() is 2 and GetCapacity() is 1. -/
theorem C9_counterexample :
    (runCalls (create 1 : CQsThreadSafeQueue Nat) [.Push 7 0, .Push 8 0]).HasCapacity = false ∧
    (runCalls (create 1 : CQsThreadSafeQueue Nat) [.Push 7 0, .Push 8 0]).Size ≠
      (runCalls (create 1 : CQsThreadSafeQueue Nat) [.Push 7 0, .Push 8 0]).GetCapacity := by
  decide

/-- C9 (amended): in every state reached from a new queue by Push and Pop calls,
HasCapacity() returns false if and only if Size() ≥ GetCapacity(), and Empty()
returns true if and only if Size() = 0; when the capacity is at least 1 and every
Push of the sequence used a positive timeout, HasCapacity() returns false if
and only if Size() = GetCapacity(). -/
theorem C9_query_consistency (C : Nat) (cs : List (QueueCall T)) :
    ((runCalls (create C) cs).HasCapacity = false ↔
        (runCalls (create C) cs).GetCapacity ≤ (runCalls (create C) cs).Size) ∧
      ((runCalls (create C) cs).Empty = true ↔ (runCalls (create C) cs).Size = 0) ∧
      (1 ≤ C → pushesWait cs = true →
        ((runCalls (create C) cs).HasCapacity = false ↔
          (runCalls (create C) cs).Size = (runCalls (create C) cs).GetCapacity)) := by
  refine ⟨?_, ?_, ?_⟩
  · simp [HasCapacity, GetCapacity, Size]
  · simp [CQsThreadSafeQueue.Empty, Size]
  · intro hC hw
    have hb := reach_bounded C hC cs hw
    have hcap : (runCalls (create C : CQsThreadSafeQueue T) cs).m_Capacity = C :=
      runCalls_capacity cs (create C)
    simp only [HasCapacity, GetCapacity, Size, hcap, decide_eq_false_iff_not, not_lt]
    omega

theorem C9_query_consistency_witness :
    1 ≤ 2 ∧ pushesWait [QueueCall.Push 7 1, .Push 8 1, .Push 9 1] = true ∧
      ((runCalls (create 2 : CQsThreadSafeQueue Nat)
          [.Push 7 1, .Push 8 1, .Push 9 1]).HasCapacity = false ↔
        (runCalls (create 2 : CQsThreadSafeQueue Nat) [.Push 7 1, .Push 8 1, .Push 9 1]).Size =
          (runCalls (create 2 : CQsThreadSafeQueue Nat)
            [.Push 7 1, .Push 8 1, .Push 9 1]).GetCapacity) :=
  ⟨by decide, by decide,
    (C9_query_consistency 2 [.Push 7 1, .Push 8 1, .Push 9 1]).2.2 (by decide) (by decide)⟩

/-- C14: for every capacity C with 2 ≤ C, both gate invariants hold together in
every state reached from a new queue by Push and Pop calls with any timeouts
(zero-timeout pushes that overfill the queue included): the not-empty signal
is set iff Size() > 0 and the capacity signal is set iff Size() < C. -/
theorem C14_both_gates (C : Nat) (hC : 2 ≤ C) (hM : C < SIZE_T_MOD)
    (cs : List (QueueCall T)) :
    ((runCalls (create C) cs).m_NotEmptyEvent.m_bState = true ↔
        0 < (runCalls (create C) cs).Size) ∧
      ((runCalls (create C) cs).m_CapacityEvent.m_bState = true ↔
        (runCalls (create C) cs).Size < C) := by
  constructor
  · have h := (reach_manual_notEmptyGate C cs).2
    simp only [NotEmptyGate] at h
    rw [h, Size, Nat.pos_iff_ne_zero]
    exact not_congr List.length_eq_zero.symm
  · have hg := reach_capacityGate C hC hM cs
    simp only [CapacityGate, runCalls_capacity] at hg
    exact hg

theorem C14_both_gates_witness :
    2 ≤ 3 ∧ 3 < SIZE_T_MOD ∧
      (((runCalls (create 3 : CQsThreadSafeQueue Nat)
          [.Push 1 0, .Push 2 0, .Push 3 0, .Push 4 0, .Pop 0 5, .Pop 0 0]).m_NotEmptyEvent.m_bState
            = true ↔
        0 < (runCalls (create 3 : CQsThreadSafeQueue Nat)
          [.Push 1 0, .Push 2 0, .Push 3 0, .Push 4 0, .Pop 0 5, .Pop 0 0]).Size) ∧
      ((runCalls (create 3 : CQsThreadSafeQueue Nat)
          [.Push 1 0, .Push 2 0, .Push 3 0, .Push 4 0, .Pop 0 5, .Pop 0 0]).m_CapacityEvent.m_bState
            = true ↔
        (runCalls (create 3 : CQsThreadSafeQueue Nat)
          [.Push 1 0, .Push 2 0, .Push 3 0, .Push 4 0, .Pop 0 5, .Pop 0 0]).Size < 3)) :=
  ⟨by decide, by decide,
    C14_both_gates 3 (by decide) (by decide)
      [.Push 1 0, .Push 2 0, .Push 3 0, .Push 4 0, .Pop 0 5, .Pop 0 0]⟩

/-- C15: at capacity 1 a Push with a positive timeout is refused on an empty
queue. In a sequence whose Push calls all wait, after one Push and one Pop the
queue holds 0 items (not 1), yet the next Push with a positive timeout returns
false. -/
theorem C15_push_refused_below_capacity :
    pushesWait [QueueCall.Push 7 1, .Pop 0 1, .Push 8 1] = true ∧
    (runCalls (create 1 : CQsThreadSafeQueue Nat) [.Push 7 1, .Pop 0 1]).Size = 0 ∧
    (runCalls (create 1 : CQsThreadSafeQueue Nat) [.Push 7 1, .Pop 0 1]).Size ≠ 1 ∧
    (runCalls (create 1 : CQsThreadSafeQueue Nat) [.Push 7 1, .Pop 0 1]).Push 8 1 =
      some (false, runCalls (create 1 : CQsThreadSafeQueue Nat) [.Push 7 1, .Pop 0 1]) := by
  decide

/-- From capacity 2 on, in a sequence whose Push calls all wait, a Push with a
positive timeout other than INFINITE returns false exactly when the queue
holds C items. -/
theorem push_refused_iff_full (C : Nat) (hC : 2 ≤ C) (hM : C < SIZE_T_MOD)
    (cs : List (QueueCall T)) (hw : pushesWait cs = true) (item : T) (t : Nat) (ht : t > 0)
    (hfin : t ≠ INFINITE) :
    (runCalls (create C) cs).Push item t = some (false, runCalls (create C) cs) ↔
      (runCalls (create C) cs).Size = C := by
  have hman := (reach_manual_notEmptyGate C cs).1
  have hg := reach_capacityGate C hC hM cs
  have hb := reach_bounded C (by omega) cs hw
  simp only [CapacityGate, runCalls_capacity] at hg
  have hcap : (create C : CQsThreadSafeQueue T).m_Capacity = C := rfl
  rw [hcap] at hg
  cases hs : (runCalls (create C) cs).m_CapacityEvent.m_bState
  · rw [Push_timeout _ item t ht hfin hs]
    have hnot : ¬ (runCalls (create C) cs).m_Queue.length < C := by
      rw [← hg, hs]
      simp
    simp only [Size, true_iff]
    omega
  · rw [Push_append _ item t hman.2 (Or.inr hs)]
    have hlt : (runCalls (create C) cs).m_Queue.length < C := hg.mp hs
    simp only [Size, Option.some.injEq, Prod.mk.injEq, Bool.true_eq_false, false_and,
      false_iff]
    omega

/-- C16 (as stated) fails: on a new, empty queue Pop with timeout 0 returns
false while Pop with the timeout INFINITE never returns. -/
theorem C16_counterexample :
    (runCalls (create 1 : CQsThreadSafeQueue Nat) []).Pop 5 0 =
        some (false, 5, runCalls (create 1 : CQsThreadSafeQueue Nat) []) ∧
      (runCalls (create 1 : CQsThreadSafeQueue Nat) []).Pop 5 INFINITE = none ∧
      (runCalls (create 1 : CQsThreadSafeQueue Nat) []).Pop 5 0 ≠
        (runCalls (create 1 : CQsThreadSafeQueue Nat) []).Pop 5 INFINITE := by
  decide

/-- C16 (amended): the outcome of Pop does not depend on its timeout as long
as the call returns. In every state reached from a new queue and for every two
timeouts, when the queue is not empty or neither timeout is INFINITE, both Pop
calls return, with the same boolean, the same content of `res` and the same
successor state; a wait on the not-empty signal that returns succeeds exactly
when the deque is not empty; and on an empty queue Pop with INFINITE never
returns. -/
theorem C16_pop_timeout_irrelevant (C : Nat) (cs : List (QueueCall T)) (res : T)
    (t1 t2 : Nat) :
    ((runCalls (create C) cs).Empty = false ∨ (t1 ≠ INFINITE ∧ t2 ≠ INFINITE) →
        ∃ r : Bool × T × CQsThreadSafeQueue T,
          (runCalls (create C) cs).Pop res t1 = some r ∧
            (runCalls (create C) cs).Pop res t2 = some r) ∧
      (∀ w : Bool × CQsThreadSafeQueue T,
        (runCalls (create C) cs).WaitForNotEmpty t1 = some w →
          (w.1 = true ↔ (runCalls (create C) cs).Empty = false)) ∧
      ((runCalls (create C) cs).Empty = true →
        (runCalls (create C) cs).Pop res INFINITE = none) := by
  have hinv := reach_manual_notEmptyGate C cs
  generalize runCalls (create C) cs = s at *
  cases hl : s.m_Queue with
  | nil =>
    have hne : s.m_NotEmptyEvent.m_bState = false := by
      cases hb : s.m_NotEmptyEvent.m_bState
      · rfl
      · exact absurd hl (hinv.2.mp hb)
    refine ⟨?_, ?_, ?_⟩
    · intro h
      rcases h with h | ⟨h1, h2⟩
      · simp [CQsThreadSafeQueue.Empty, hl] at h
      · exact ⟨_, Pop_nil s res t1 hinv.1.1 hl (Or.inl h1),
          Pop_nil s res t2 hinv.1.1 hl (Or.inl h2)⟩
    · intro w hw
      by_cases hi : t1 = INFINITE
      · simp [WaitForNotEmpty, QsEvent.Wait, hne, hi] at hw
      · simp only [WaitForNotEmpty, QsEvent.Wait, hne, Bool.false_eq_true, if_false, hi,
          Option.map_some', Option.some.injEq] at hw
        subst hw
        simp [CQsThreadSafeQueue.Empty, hl]
    · intro _
      exact Pop_blocked s res hne
  | cons x rest =>
    have hne : s.m_NotEmptyEvent.m_bState = true := by
      apply hinv.2.mpr
      rw [hl]
      exact List.cons_ne_nil x rest
    refine ⟨?_, ?_, ?_⟩
    · intro _
      exact ⟨_, Pop_cons s res t1 x rest hinv.1.1 hl (Or.inr hne),
        Pop_cons s res t2 x rest hinv.1.1 hl (Or.inr hne)⟩
    · intro w hw
      simp only [WaitForNotEmpty, QsEvent.Wait, hne, if_true, Option.map_some',
        Option.some.injEq] at hw
      subst hw
      simp [CQsThreadSafeQueue.Empty, hl]
    · intro h
      simp [CQsThreadSafeQueue.Empty, hl] at h

theorem C16_pop_timeout_irrelevant_witness :
    (runCalls (create 2 : CQsThreadSafeQueue Nat) [.Push 7 1]).Empty = false ∧
      ∃ r : Bool × Nat × CQsThreadSafeQueue Nat,
        (runCalls (create 2 : CQsThreadSafeQueue Nat) [.Push 7 1]).Pop 5 0 = some r ∧
          (runCalls (create 2 : CQsThreadSafeQueue Nat) [.Push 7 1]).Pop 5 INFINITE = some r :=
  ⟨by decide,
    (C16_pop_timeout_irrelevant 2 [.Push 7 1] 5 0 INFINITE).1 (Or.inl (by decide))⟩

end QueueClaims

/-! ## The decoder: locked-surface set -/

section SurfaceClaims

open CQuickSyncDecoder

theorem LockSurface_of_mem (d : CQuickSyncDecoder) (pSurface : SurfacePtr)
    (h : pSurface ∈ d.m_LockedSurfaces) : d.LockSurface pSurface = d := by
  simp [LockSurface, h]

/-- C10: LockSurface is an idempotent set insert. For every decoder state and
every non-null surface pointer, LockSurface makes the locked set the old set
with the pointer added and leaves the output queue alone; when the pointer is
already in the set the state is unchanged; LockSurface twice gives the same
state as once; and afterwards IsSurfaceLocked returns true for that pointer
whatever the surface's own lock counter is. -/
theorem C10_lock_surface_insert (d : CQuickSyncDecoder) (pSurface : SurfacePtr)
    (hnn : pSurface ≠ NULL) :
    (d.LockSurface pSurface).m_LockedSurfaces = d.m_LockedSurfaces ∪ {pSurface} ∧
      (d.LockSurface pSurface).m_OutputSurfaceQueue = d.m_OutputSurfaceQueue ∧
      (pSurface ∈ d.m_LockedSurfaces → d.LockSurface pSurface = d) ∧
      (d.LockSurface pSurface).LockSurface pSurface = d.LockSurface pSurface ∧
      ∀ mem : SurfaceMemory, (d.LockSurface pSurface).IsSurfaceLocked mem pSurface = true := by
  have hmem : pSurface ∈ (d.LockSurface pSurface).m_LockedSurfaces := by
    unfold LockSurface
    split_ifs with h
    · exact h
    · exact Finset.mem_insert_self _ _
  refine ⟨?_, ?_, ?_, ?_, ?_⟩
  · unfold LockSurface
    split_ifs with h
    · ext x
      simp only [Finset.mem_union, Finset.mem_singleton]
      constructor
      · exact Or.inl
      · rintro (hx | rfl)
        · exact hx
        · exact h
    · ext x
      simp only [Finset.mem_insert, Finset.mem_union, Finset.mem_singleton]
      exact or_comm
  · unfold LockSurface
    split_ifs <;> rfl
  · exact LockSurface_of_mem d pSurface
  · exact LockSurface_of_mem _ pSurface hmem
  · intro mem
    unfold IsSurfaceLocked
    split_ifs
    · rfl
    · exact decide_eq_true hmem

theorem C10_lock_surface_insert_witness :
    (3 : SurfacePtr) ≠ NULL ∧
      (CQuickSyncDecoder.LockSurface ⟨[5], {1, 2}⟩ 3).m_LockedSurfaces = {1, 2} ∪ {3} ∧
      (CQuickSyncDecoder.LockSurface ⟨[5], {1, 2}⟩ 3).LockSurface 3 =
        CQuickSyncDecoder.LockSurface ⟨[5], {1, 2}⟩ 3 :=
  ⟨by decide, (C10_lock_surface_insert ⟨[5], {1, 2}⟩ 3 (by decide)).1,
    (C10_lock_surface_insert ⟨[5], {1, 2}⟩ 3 (by decide)).2.2.2.1⟩

theorem not_mem_UnlockSurface (d : CQuickSyncDecoder) (pSurface : SurfacePtr) :
    pSurface ∉ (d.UnlockSurface pSurface).m_LockedSurfaces := by
  unfold UnlockSurface
  split_ifs with h
  · exact Finset.not_mem_erase _ _
  · exact h

theorem UnlockSurface_of_not_mem (d : CQuickSyncDecoder) (pSurface : SurfacePtr)
    (h : pSurface ∉ d.m_LockedSurfaces) : d.UnlockSurface pSurface = d := by
  simp [UnlockSurface, h]

/-- C11: UnlockSurface is an idempotent set removal and claims are not counted.
For every decoder state and every non-null surface pointer, UnlockSurface makes
the locked set the old set without the pointer and leaves the output queue
alone; the state is unchanged when the pointer is not in the set; UnlockSurface
twice gives the same state as once; and after any number n ≥ 1 of LockSurface
calls one UnlockSurface makes IsSurfaceLocked equal to `Data.Locked != 0`. -/
theorem C11_unlock_surface_remove (d : CQuickSyncDecoder) (pSurface : SurfacePtr)
    (_hnn : pSurface ≠ NULL) :
    (d.UnlockSurface pSurface).m_LockedSurfaces = d.m_LockedSurfaces \ {pSurface} ∧
      (d.UnlockSurface pSurface).m_OutputSurfaceQueue = d.m_OutputSurfaceQueue ∧
      (pSurface ∉ d.m_LockedSurfaces → d.UnlockSurface pSurface = d) ∧
      (d.UnlockSurface pSurface).UnlockSurface pSurface = d.UnlockSurface pSurface ∧
      ∀ (n : Nat) (mem : SurfaceMemory), 1 ≤ n →
        (((fun s : CQuickSyncDecoder => s.LockSurface pSurface)^[n] d).UnlockSurface
            pSurface).IsSurfaceLocked mem pSurface =
          decide ((mem pSurface).Data.Locked ≠ 0) := by
  refine ⟨?_, ?_, UnlockSurface_of_not_mem d pSurface,
    UnlockSurface_of_not_mem _ pSurface (not_mem_UnlockSurface d pSurface), ?_⟩
  · unfold UnlockSurface
    split_ifs with h
    · exact (Finset.sdiff_singleton_eq_erase pSurface d.m_LockedSurfaces).symm
    · exact ((Finset.sdiff_singleton_eq_erase pSurface d.m_LockedSurfaces).trans
        (Finset.erase_eq_of_not_mem h)).symm
  · unfold UnlockSurface
    split_ifs <;> rfl
  · intro n mem _
    have hout := not_mem_UnlockSurface
      ((fun s : CQuickSyncDecoder => s.LockSurface pSurface)^[n] d) pSurface
    unfold IsSurfaceLocked
    by_cases hL : (mem pSurface).Data.Locked = 0
    · simp [hL, hout]
    · have hL2 : 0 ≠ (mem pSurface).Data.Locked := fun h => hL h.symm
      simp [hL, hL2]

theorem C11_unlock_surface_remove_witness :
    (3 : SurfacePtr) ≠ NULL ∧
      (CQuickSyncDecoder.UnlockSurface ⟨[5], {1, 3}⟩ 3).m_LockedSurfaces = {1, 3} \ {3} ∧
      (((fun s : CQuickSyncDecoder => s.LockSurface 3)^[2] ⟨[5], {1}⟩).UnlockSurface
          3).IsSurfaceLocked (fun _ => ⟨⟨0⟩⟩) 3 =
        decide (((fun _ => ⟨⟨0⟩⟩ : SurfaceMemory) 3).Data.Locked ≠ 0) :=
  ⟨by decide, (C11_unlock_surface_remove ⟨[5], {1, 3}⟩ 3 (by decide)).1,
    (C11_unlock_surface_remove ⟨[5], {1}⟩ 3 (by decide)).2.2.2.2 2 (fun _ => ⟨⟨0⟩⟩)
      (by decide)⟩

/-- C12: IsSurfaceLocked is the OR of the two busy sources. For every decoder
state and every non-null surface pointer, IsSurfaceLocked returns true if and
only if the surface's `Data.Locked` is not 0 or the pointer is a member of the
locked set; the method only reads the set and the surface. -/
theorem C12_is_surface_locked_or (d : CQuickSyncDecoder) (mem : SurfaceMemory)
    (pSurface : SurfacePtr) (_hnn : pSurface ≠ NULL) :
    d.IsSurfaceLocked mem pSurface = true ↔
      ((mem pSurface).Data.Locked ≠ 0 ∨ pSurface ∈ d.m_LockedSurfaces) := by
  unfold IsSurfaceLocked
  by_cases hL : (mem pSurface).Data.Locked = 0
  · simp [hL]
  · have hL2 : 0 ≠ (mem pSurface).Data.Locked := fun h => hL h.symm
    simp [hL, hL2]

theorem C12_is_surface_locked_or_witness :
    (3 : SurfacePtr) ≠ NULL ∧
      (CQuickSyncDecoder.IsSurfaceLocked ⟨[], {1, 2}⟩ (fun _ => ⟨⟨4⟩⟩) 3 = true ↔
        (((fun _ => ⟨⟨4⟩⟩ : SurfaceMemory) 3).Data.Locked ≠ 0 ∨
          (3 : SurfacePtr) ∈ ({1, 2} : Finset SurfacePtr))) :=
  ⟨by decide, C12_is_surface_locked_or ⟨[], {1, 2}⟩ (fun _ => ⟨⟨4⟩⟩) 3 (by decide)⟩

/-- C13: FindFreeSurface never hands out a claimed surface. For every pool,
every start index and every decoder state, FindFreeSurface returns none or a
surface of the pool for which IsSurfaceLocked is false; it returns none if and
only if IsSurfaceLocked is true for every surface of the pool; and right after
LockSurface of a surface it does not return that surface. -/
theorem C13_find_free_surface (d : CQuickSyncDecoder) (mem : SurfaceMemory)
    (pool : List SurfacePtr) (m_nLastSurfaceId : Nat) :
    (∀ pSurface, d.FindFreeSurface mem pool m_nLastSurfaceId = some pSurface →
        pSurface ∈ pool ∧ d.IsSurfaceLocked mem pSurface = false) ∧
      (d.FindFreeSurface mem pool m_nLastSurfaceId = none ↔
        ∀ pSurface ∈ pool, d.IsSurfaceLocked mem pSurface = true) ∧
      (∀ pSurface,
        (d.LockSurface pSurface).FindFreeSurface mem pool m_nLastSurfaceId ≠ some pSurface) := by
  have hsome : ∀ (e : CQuickSyncDecoder) (pSurface : SurfacePtr),
      e.FindFreeSurface mem pool m_nLastSurfaceId = some pSurface →
        pSurface ∈ pool ∧ e.IsSurfaceLocked mem pSurface = false := by
    intro e pSurface h
    unfold FindFreeSurface at h
    constructor
    · exact List.mem_rotate.mp (List.mem_of_find?_eq_some h)
    · have := List.find?_some h
      simpa using this
  refine ⟨hsome d, ?_, ?_⟩
  · unfold FindFreeSurface
    rw [List.find?_eq_none]
    constructor
    · intro h pSurface hp
      have := h pSurface (List.mem_rotate.mpr hp)
      simpa using this
    · intro h pSurface hp
      have := h pSurface (List.mem_rotate.mp hp)
      simpa using this
  · intro pSurface h
    have hfree := (hsome _ pSurface h).2
    have hmem : pSurface ∈ (d.LockSurface pSurface).m_LockedSurfaces := by
      unfold LockSurface
      split_ifs with hin
      · exact hin
      · exact Finset.mem_insert_self _ _
    unfold IsSurfaceLocked at hfree
    split_ifs at hfree
    simp [hmem] at hfree

theorem C13_find_free_surface_witness :
    CQuickSyncDecoder.FindFreeSurface ⟨[], {10, 20}⟩ (fun _ => ⟨⟨0⟩⟩) [10, 20, 30, 40] 1 =
        some 30 ∧
      ((30 : SurfacePtr) ∈ [10, 20, 30, 40] ∧
        CQuickSyncDecoder.IsSurfaceLocked ⟨[], {10, 20}⟩ (fun _ => ⟨⟨0⟩⟩) 30 = false) :=
  ⟨by decide,
    (C13_find_free_surface ⟨[], {10, 20}⟩ (fun _ => ⟨⟨0⟩⟩) [10, 20, 30, 40] 1).1 30
      (by decide)⟩

/-- C17: claim bookkeeping is local to one surface. For surface pointers g and
h with g ≠ h, LockSurface(h) and UnlockSurface(h) leave IsSurfaceLocked(g)
unchanged, and neither changes the output surface queue (content, order and
OutputQueueSize()). -/
theorem C17_lock_unlock_frame (d : CQuickSyncDecoder) (mem : SurfaceMemory)
    (h g : SurfacePtr) (hne : g ≠ h) :
    (d.LockSurface h).IsSurfaceLocked mem g = d.IsSurfaceLocked mem g ∧
      (d.UnlockSurface h).IsSurfaceLocked mem g = d.IsSurfaceLocked mem g ∧
      (d.LockSurface h).m_OutputSurfaceQueue = d.m_OutputSurfaceQueue ∧
      (d.UnlockSurface h).m_OutputSurfaceQueue = d.m_OutputSurfaceQueue ∧
      (d.LockSurface h).OutputQueueSize = d.OutputQueueSize ∧
      (d.UnlockSurface h).OutputQueueSize = d.OutputQueueSize := by
  have hl : (g ∈ (d.LockSurface h).m_LockedSurfaces ↔ g ∈ d.m_LockedSurfaces) := by
    unfold LockSurface
    split_ifs
    · exact Iff.rfl
    · simp [Finset.mem_insert, hne]
  have hu : (g ∈ (d.UnlockSurface h).m_LockedSurfaces ↔ g ∈ d.m_LockedSurfaces) := by
    unfold UnlockSurface
    split_ifs
    · simp [Finset.mem_erase, hne]
    · exact Iff.rfl
  have hql : (d.LockSurface h).m_OutputSurfaceQueue = d.m_OutputSurfaceQueue := by
    unfold LockSurface
    split_ifs <;> rfl
  have hqu : (d.UnlockSurface h).m_OutputSurfaceQueue = d.m_OutputSurfaceQueue := by
    unfold UnlockSurface
    split_ifs <;> rfl
  refine ⟨?_, ?_, hql, hqu, ?_, ?_⟩
  · simp only [IsSurfaceLocked, hl]
  · simp only [IsSurfaceLocked, hu]
  · simp only [OutputQueueSize, hql]
  · simp only [OutputQueueSize, hqu]

theorem C17_lock_unlock_frame_witness :
    (2 : SurfacePtr) ≠ 3 ∧
      (CQuickSyncDecoder.LockSurface ⟨[5, 6], {1, 2}⟩ 3).IsSurfaceLocked (fun _ => ⟨⟨0⟩⟩) 2 =
        CQuickSyncDecoder.IsSurfaceLocked ⟨[5, 6], {1, 2}⟩ (fun _ => ⟨⟨0⟩⟩) 2 :=
  ⟨by decide, (C17_lock_unlock_frame ⟨[5, 6], {1, 2}⟩ (fun _ => ⟨⟨0⟩⟩) 3 2 (by decide)).1⟩

theorem PopSurface_queue (d : CQuickSyncDecoder) :
    d.m_OutputSurfaceQueue =
      (if d.OutputQueueEmpty then [] else [d.PopSurface.1]) ++
        d.PopSurface.2.m_OutputSurfaceQueue := by
  unfold PopSurface OutputQueueEmpty
  cases hq : d.m_OutputSurfaceQueue <;> simp [hq]

theorem PopSurface_length (d : CQuickSyncDecoder) :
    d.PopSurface.2.m_OutputSurfaceQueue.length + (if d.OutputQueueEmpty then 0 else 1) =
      d.m_OutputSurfaceQueue.length := by
  unfold PopSurface OutputQueueEmpty
  cases hq : d.m_OutputSurfaceQueue <;> simp [hq]

theorem pushed_popped_surfaces (cs : List SurfaceCall) :
    ∀ d : CQuickSyncDecoder,
      d.m_OutputSurfaceQueue ++ pushedSurfaces cs =
        poppedSurfaces d cs ++ (runSurfaceCalls d cs).m_OutputSurfaceQueue := by
  induction cs with
  | nil => intro d; simp [pushedSurfaces, poppedSurfaces, runSurfaceCalls]
  | cons c cs ih =>
    intro d
    cases c with
    | PushSurface pSurface =>
      simp only [pushedSurfaces, poppedSurfaces, runSurfaceCalls, stepSurfaceCall]
      rw [← ih]
      simp [PushSurface]
    | PopSurface =>
      simp only [pushedSurfaces, poppedSurfaces, runSurfaceCalls, stepSurfaceCall]
      rw [List.append_assoc, ← ih, ← List.append_assoc, ← PopSurface_queue]

theorem surface_count_balance (cs : List SurfaceCall) :
    ∀ d : CQuickSyncDecoder,
      (runSurfaceCalls d cs).m_OutputSurfaceQueue.length + popSurfaceCount d cs =
        d.m_OutputSurfaceQueue.length + pushSurfaceCount cs := by
  induction cs with
  | nil => intro d; simp [popSurfaceCount, pushSurfaceCount, runSurfaceCalls]
  | cons c cs ih =>
    intro d
    cases c with
    | PushSurface pSurface =>
      simp only [popSurfaceCount, pushSurfaceCount, runSurfaceCalls, stepSurfaceCall]
      rw [ih]
      simp only [PushSurface, List.length_append, List.length_singleton]
      omega
    | PopSurface =>
      simp only [popSurfaceCount, pushSurfaceCount, runSurfaceCalls, stepSurfaceCall]
      have h1 := ih d.PopSurface.2
      have h2 := PopSurface_length d
      omega

/-- C18: the output surface queue is an unbounded FIFO. For every sequence of
PushSurface and PopSurface calls on an initially empty queue: the surfaces
pushed are the surfaces popped from a non-empty queue, in call order, followed
by the remaining queue front to back; OutputQueueSize() equals the number of
PushSurface calls minus the number of PopSurface calls made on a non-empty
queue, and OutputQueueEmpty() is true iff that number is 0. In every state
PopSurface returns NULL and leaves the decoder unchanged exactly when the queue
is empty, and otherwise returns the front surface and removes it. -/
theorem C18_output_queue_fifo (locked : Finset SurfacePtr) (cs : List SurfaceCall) :
    pushedSurfaces cs =
        poppedSurfaces ⟨[], locked⟩ cs ++
          (runSurfaceCalls ⟨[], locked⟩ cs).m_OutputSurfaceQueue ∧
      (runSurfaceCalls ⟨[], locked⟩ cs).OutputQueueSize =
        pushSurfaceCount cs - popSurfaceCount ⟨[], locked⟩ cs ∧
      popSurfaceCount ⟨[], locked⟩ cs ≤ pushSurfaceCount cs ∧
      ((runSurfaceCalls ⟨[], locked⟩ cs).OutputQueueEmpty = true ↔
        pushSurfaceCount cs - popSurfaceCount ⟨[], locked⟩ cs = 0) ∧
      ∀ d : CQuickSyncDecoder,
        ((d.PopSurface.1 = NULL ∧ d.PopSurface.2 = d) ↔ d.OutputQueueEmpty = true) ∧
        (∀ (front : SurfacePtr) (rest : List SurfacePtr),
          d.m_OutputSurfaceQueue = front :: rest →
            d.PopSurface = (front, ⟨rest, d.m_LockedSurfaces⟩)) := by
  have hfifo := pushed_popped_surfaces cs ⟨[], locked⟩
  have hbal := surface_count_balance cs ⟨[], locked⟩
  simp only [List.nil_append, List.length_nil, Nat.zero_add] at hfifo hbal
  refine ⟨hfifo, ?_, ?_, ?_, ?_⟩
  · simp only [OutputQueueSize]
    omega
  · omega
  · simp only [OutputQueueEmpty, List.isEmpty_iff, ← List.length_eq_zero]
    omega
  · intro d
    constructor
    · unfold PopSurface OutputQueueEmpty
      cases hq : d.m_OutputSurfaceQueue with
      | nil => simp
      | cons x rest =>
        simp only [List.isEmpty_cons, Bool.false_eq_true, iff_false, not_and]
        intro _ heq
        have hlen := congrArg (fun e : CQuickSyncDecoder => e.m_OutputSurfaceQueue.length) heq
        simp only [hq, List.length_cons] at hlen
        omega
    · intro front rest hq
      simp [PopSurface, hq]

theorem C18_output_queue_fifo_witness :
    (CQuickSyncDecoder.mk [0, 9] {1}).m_OutputSurfaceQueue = 0 :: [9] ∧
      CQuickSyncDecoder.PopSurface ⟨[0, 9], {1}⟩ = (0, ⟨[9], {1}⟩) :=
  ⟨rfl, (C18_output_queue_fifo {1} []).2.2.2.2 ⟨[0, 9], {1}⟩ |>.2 0 [9] rfl⟩

end SurfaceClaims

end QuickSync
